import Mathlib

/-!
Verification of the changelog-rewriting engine and version catalog of the
`git-release-manager` repository (`grm/changelog.py`, `grm/version_manager.py`).

Documents are modelled as `List Char` (the raw text); lines are the result of
splitting on the newline character, exactly as the Python code does with
`content.split("\n")` and rejoins with `"\n".join(...)`.  The changelog file is
modelled as `Option Text` (`none` = file absent, the only read failure the
model represents).  All functions are direct translations of the Python
source; comments note the correspondence.
-/

namespace Grm

abbrev Line : Type := List Char
abbrev Text : Type := List Char

/-- Python whitespace characters recognised by `str.strip()` (ASCII range). -/
def isPySpace (c : Char) : Bool :=
  c = ' ' || c = '\t' || c = '\n' || c = '\r' || c = '\x0b' || c = '\x0c'

/-- `str.lstrip()` -/
def pyLstrip (l : List Char) : List Char := l.dropWhile isPySpace

/-- `str.rstrip()` -/
def pyRstrip (l : List Char) : List Char := (l.reverse.dropWhile isPySpace).reverse

/-- `str.strip()` -/
def pyStrip (l : List Char) : List Char := pyLstrip (pyRstrip l)

/-- `text.split(c)` for a single-character separator, Python semantics:
the empty string yields `[""]`, separators at the ends yield empty pieces. -/
def splitOnCharAux (c : Char) : List Char → List Char → List (List Char)
  | [], acc => [acc.reverse]
  | x :: xs, acc =>
    if x = c then acc.reverse :: splitOnCharAux c xs []
    else splitOnCharAux c xs (x :: acc)

def splitOnChar (c : Char) (s : List Char) : List (List Char) :=
  splitOnCharAux c s []

/-- `content.split("\n")` -/
def splitNl (s : Text) : List Line := splitOnChar '\n' s

/-- `"\n".join(lines)` -/
def joinNl : List Line → Text
  | [] => []
  | [l] => l
  | l :: ls => l ++ '\n' :: joinNl ls

/-- Index of the first element from the head satisfying `p` (the `for`/`break`
scanning loops of the source). -/
def firstIdx? (p : Line → Bool) : List Line → Option Nat
  | [] => none
  | l :: ls => if p l then some 0 else (firstIdx? p ls).map (· + 1)

/-- First index `≥ s` whose line satisfies `p` (a `for j in range(s, len(lines))`
loop in the source). -/
def firstIdxFrom? (p : Line → Bool) (lines : List Line) (s : Nat) : Option Nat :=
  (firstIdx? p (lines.drop s)).map (· + s)

/-- `UNRELEASED_PATTERN.match(line.strip())`: the regex `^## Unreleased$` with
`re.IGNORECASE` matches the stripped line exactly when the stripped line equals
`## Unreleased` up to case. -/
def isUnreleasedLine (l : Line) : Bool :=
  (pyStrip l).map Char.toLower = ("## unreleased".data)

/-- `line.strip()` is empty (a blank line). -/
def isBlankLine (l : Line) : Bool := (pyStrip l).isEmpty

/-- `lines[i].strip().startswith("## ") and not UNRELEASED_PATTERN.match(lines[i].strip())`:
a line that starts the next `## `-level section. -/
def isSectionStart (l : Line) : Bool :=
  List.isPrefixOf "## ".data (pyStrip l) && !(isUnreleasedLine l)

/-- The error kinds raised by the changelog engine (`ChangelogError` in the
source, distinguished here by raise site). -/
inductive ChangelogErr : Type where
  | sectionNotFound : ChangelogErr
  | invalidDate : ChangelogErr
  | ioFailure : ChangelogErr
deriving DecidableEq, Repr

/-- `ChangelogManager._find_unreleased_section`.  The source's first inner loop
sets `content_start = j` at the first non-blank line after the header (its
provisional `content_end = j` assignment in the `startswith("##")` branch is
always overwritten, because the final scan runs whenever
`content_start < len(lines)` and its `for`/`else` always assigns
`content_end`).  The final scan looks for the first line from `content_start`
onward that starts a new `## `-level section. -/
def findUnreleasedSection (lines : List Line) : Except ChangelogErr (Nat × Nat) :=
  match firstIdx? isUnreleasedLine lines with
  | none => .error .sectionNotFound
  | some i =>
    match firstIdxFrom? (fun l => !(isBlankLine l)) lines (i + 1) with
    | none =>
      -- no content found, unreleased section goes to end
      .ok (lines.length, lines.length)
    | some j =>
      match firstIdxFrom? isSectionStart lines j with
      | none => .ok (j, lines.length)
      | some k => .ok (j, k)

/-- `ChangelogManager.read_changelog`: the only modelled failure is an absent
file. -/
def readChangelog (file : Option Text) : Except ChangelogErr Text :=
  match file with
  | none => .error .ioFailure
  | some t => .ok t

/-- The text-level body of `extract_unreleased_content` (after the file read):
lines of the located range, each `rstrip`-ped, keeping only those whose
`strip()` is non-empty. -/
def extractFromText (content : Text) : Except ChangelogErr (List Line) :=
  match findUnreleasedSection (splitNl content) with
  | .error e => .error e
  | .ok (contentStart, contentEnd) =>
    .ok ((((splitNl content).drop contentStart).take (contentEnd - contentStart)).filterMap
      fun l =>
        let r := pyRstrip l
        if (pyStrip r).isEmpty then none else some r)

/-- `ChangelogManager.extract_unreleased_content`: read the file, then extract. -/
def extractUnreleasedContent (file : Option Text) : Except ChangelogErr (List Line) :=
  match readChangelog file with
  | .error e => .error e
  | .ok content => extractFromText content

/-! ### Date validation (`datetime.strptime(date, "%Y-%m-%d")`) -/

def digitVal (c : Char) : Nat := c.toNat - 48

/-- Whether year `y` is a leap year (the proleptic Gregorian rule used by
`datetime`). -/
def isLeapYear (y : Nat) : Bool := y % 4 = 0 && (y % 100 ≠ 0 || y % 400 = 0)

/-- Number of days of month `m` in year `y` (as checked by the `datetime`
constructor). -/
def daysInMonth (y m : Nat) : Nat :=
  if m = 2 then (if isLeapYear y then 29 else 28)
  else if m = 4 || m = 6 || m = 9 || m = 11 then 30
  else 31

/-- The `%m` / `%d` directives of `strptime` match one or two digits
(`1[0-2]|0[1-9]|[1-9]` for months, `3[01]|[12]\d|0[1-9]|[1-9]` for days);
both amount to: one or two digits whose value lies in `1..hi`.  A two-digit
match cannot backtrack into a one-digit one, because the following literal
`-` (or end of string) is never a digit. -/
def parseTwoDigitField (hi : Nat) : List Char → Option (Nat × List Char)
  | c1 :: c2 :: rest =>
    if c1.isDigit && c2.isDigit then
      let v := 10 * digitVal c1 + digitVal c2
      if 1 ≤ v && v ≤ hi then some (v, rest) else none
    else if c1.isDigit then
      if 1 ≤ digitVal c1 then some (digitVal c1, c2 :: rest) else none
    else none
  | [c1] =>
    if c1.isDigit && 1 ≤ digitVal c1 then some (digitVal c1, []) else none
  | [] => none

/-- `datetime.strptime(date, "%Y-%m-%d")` succeeds: exactly four year digits
(`%Y` compiles to `\d\d\d\d`), a literal `-`, a month, a literal `-`, a day,
end of input; then the `datetime` constructor checks `1 <= year` and that the
day exists in the month. -/
def validDate (d : Text) : Bool :=
  match d with
  | y1 :: y2 :: y3 :: y4 :: '-' :: rest =>
    if y1.isDigit && y2.isDigit && y3.isDigit && y4.isDigit then
      let y := 1000 * digitVal y1 + 100 * digitVal y2 + 10 * digitVal y3 + digitVal y4
      match parseTwoDigitField 12 rest with
      | some (m, '-' :: rest2) =>
        match parseTwoDigitField 31 rest2 with
        | some (dd, []) => 1 ≤ y && dd ≤ daysInMonth y m
        | _ => false
      | _ => false
    else false
  | _ => false

/-! ### `move_unreleased_to_version` -/

/-- The two `while` loops of the source that pop blank lines from the front
and from the back of the extracted content. -/
def trimBlankLines (ls : List Line) : List Line :=
  ((ls.dropWhile isBlankLine).reverse.dropWhile isBlankLine).reverse

/-- `f"## {version} - {date}"` -/
def versionHeaderLine (version date : Text) : Line :=
  "## ".data ++ version ++ " - ".data ++ date

/-- The empty line produced by `new_lines.append("")`. -/
def emptyLine : Line := []

/-- The text-level body of `move_unreleased_to_version` (after date validation
and the file read).  The source first re-scans for the header line on its own
loop, then locates the content range, trims boundary blank lines from the
copied content, and reconstructs the document. -/
def moveText (content version date : Text) : Except ChangelogErr Text :=
  match firstIdx? isUnreleasedLine (splitNl content) with
  | none => .error .sectionNotFound
  | some unreleasedStart =>
    match findUnreleasedSection (splitNl content) with
    | .error e => .error e
    | .ok (contentStart, contentEnd) =>
      .ok (joinNl (
        (splitNl content).take (unreleasedStart + 1) ++ [emptyLine] ++
        (if (trimBlankLines (((splitNl content).drop contentStart).take
              (contentEnd - contentStart))).isEmpty then []
         else versionHeaderLine version date :: emptyLine ::
              (trimBlankLines (((splitNl content).drop contentStart).take
                (contentEnd - contentStart)) ++ [emptyLine])) ++
        (splitNl content).drop contentEnd))

/-- `ChangelogManager.move_unreleased_to_version` with an explicitly supplied
date (when the source receives `None` it substitutes the current local date,
which the model does not represent; every claim supplies a date).  The date is
validated before anything is read or written; the returned text is the content
the source writes back to the file. -/
def moveUnreleasedToVersion (file : Option Text) (version date : Text) :
    Except ChangelogErr Text :=
  if !validDate date then .error .invalidDate
  else
    match readChangelog file with
    | .error e => .error e
    | .ok content => moveText content version date

/-- `ChangelogManager.has_unreleased_content`: `try`/`except ChangelogError`
around extraction. -/
def hasUnreleasedContent (file : Option Text) : Bool :=
  match extractUnreleasedContent file with
  | .ok content => content.length > 0
  | .error _ => false

/-! ### `validate_changelog_format` -/

/-- `VERSION_HEADER_PATTERN`: `^## (\d+\.\d+\.\d+) - (\d{4}-\d{2}-\d{2})$`,
applied to already-stripped input.  The greedy `\d+` groups are unambiguous
because the following literal is never a digit. -/
def versionHeaderShape (l : Line) : Bool :=
  match l with
  | '#' :: '#' :: ' ' :: rest =>
    let a := rest.takeWhile Char.isDigit
    match rest.dropWhile Char.isDigit with
    | '.' :: rest2 =>
      let b := rest2.takeWhile Char.isDigit
      match rest2.dropWhile Char.isDigit with
      | '.' :: rest3 =>
        let c := rest3.takeWhile Char.isDigit
        match rest3.dropWhile Char.isDigit with
        | ' ' :: '-' :: ' ' :: rest4 =>
          !a.isEmpty && !b.isEmpty && !c.isEmpty &&
          (match rest4 with
           | [d1, d2, d3, d4, '-', m1, m2, '-', e1, e2] =>
             d1.isDigit && d2.isDigit && d3.isDigit && d4.isDigit &&
             m1.isDigit && m2.isDigit && e1.isDigit && e2.isDigit
           | _ => false)
        | _ => false
      | _ => false
    | _ => false
  | _ => false

/-- An ASCII single-quote character (the quotes the source's f-strings put
around the offending line). -/
def sq : Char := Char.ofNat 39

/-- `"Missing '## Unreleased' section"` -/
def missingUnreleasedMsg : Text :=
  "Missing ".data ++ sq :: "## Unreleased".data ++ sq :: " section".data

/-- `f"Line {i}: Invalid version header format: '{line.strip()}'"` -/
def invalidHeaderMsg (n : Nat) (l : Line) : Text :=
  "Line ".data ++ Nat.toDigits 10 n ++
    ": Invalid version header format: ".data ++ sq :: pyStrip l ++ [sq]

/-- `ChangelogManager.validate_changelog_format`.  In the model a present file
always reads successfully, so the source's `except` branch around the read is
unreachable and is omitted. -/
def validateChangelogFormat (file : Option Text) : List Text :=
  match file with
  | none => ["CHANGELOG.md does not exist".data]
  | some content =>
    let lines := splitNl content
    let missing : List Text :=
      if lines.any isUnreleasedLine then [] else [missingUnreleasedMsg]
    missing ++ lines.enum.filterMap fun p =>
      if List.isPrefixOf "## ".data (pyStrip p.2) && !(isUnreleasedLine p.2) then
        if versionHeaderShape (pyStrip p.2) then none
        else some (invalidHeaderMsg (p.1 + 1) p.2)
      else none

/-! ### `version_manager.py` -/

/-- `Version` dataclass: an immutable triple of non-negative integers. -/
structure Version : Type where
  major : Nat
  minor : Nat
  patch : Nat
deriving DecidableEq, Repr

def Version.bumpMajor (v : Version) : Version := ⟨v.major + 1, 0, 0⟩

def Version.bumpMinor (v : Version) : Version := ⟨v.major, v.minor + 1, 0⟩

def Version.bumpPatch (v : Version) : Version := ⟨v.major, v.minor, v.patch + 1⟩

/-- `Version.__lt__`: lexicographic comparison of the `(major, minor, patch)`
tuples. -/
def vlt (a b : Version) : Prop :=
  a.major < b.major ∨
    (a.major = b.major ∧
      (a.minor < b.minor ∨ (a.minor = b.minor ∧ a.patch < b.patch)))

instance : DecidableRel vlt := fun a b => by unfold vlt; exact inferInstance

/-- The non-strict order induced by `__lt__` and `__eq__`; `sorted(versions)`
produces a list non-decreasing under this relation. -/
def vle (a b : Version) : Prop := vlt a b ∨ a = b

instance : DecidableRel vle := fun a b => by unfold vle; exact inferInstance

instance : IsTotal Version vle :=
  ⟨by
    intro a b
    obtain ⟨a1, a2, a3⟩ := a
    obtain ⟨b1, b2, b3⟩ := b
    simp only [vle, vlt, Version.mk.injEq]
    omega⟩

instance : IsTrans Version vle :=
  ⟨by
    intro a b c hab hbc
    obtain ⟨a1, a2, a3⟩ := a
    obtain ⟨b1, b2, b3⟩ := b
    obtain ⟨c1, c2, c3⟩ := c
    simp only [vle, vlt, Version.mk.injEq] at hab hbc ⊢
    omega⟩

instance : IsRefl Version vle := ⟨fun _ => Or.inr rfl⟩

def allDigits (l : List Char) : Bool := l.all Char.isDigit

/-- `int()` applied to a non-empty digit string. -/
def natOfDigits (l : List Char) : Nat := l.foldl (fun n c => 10 * n + digitVal c) 0

/-- `SEMVER_PATTERN`: `^(\d+)\.(\d+)\.(\d+)$`.  Since `\d+` never contains a
dot, the regex matches exactly when splitting on `.` yields three non-empty
all-digit groups. -/
def parseSemverText (s : Text) : Option Version :=
  match splitOnChar '.' s with
  | [a, b, c] =>
    if !a.isEmpty && allDigits a && !b.isEmpty && allDigits b &&
        !c.isEmpty && allDigits c then
      some ⟨natOfDigits a, natOfDigits b, natOfDigits c⟩
    else none
  | _ => none

/-- The tag-cleaning step of `_parse_versions`: at most one recognised marker
is stripped; `sorted(["v", "version-", "release-"], key=len, reverse=True)` is
stable, so the test order is `version-`, `release-`, `v`. -/
def stripTagMarker (tag : Text) : Text :=
  if List.isPrefixOf "version-".data tag then tag.drop 8
  else if List.isPrefixOf "release-".data tag then tag.drop 8
  else if List.isPrefixOf "v".data tag then tag.drop 1
  else tag

/-- `VersionManager._parse_versions`: clean each tag, parse, silently drop
failures, and return the parsed versions sorted ascending. -/
def parseVersions (tags : List Text) : List Version :=
  List.insertionSort vle (tags.filterMap fun t => parseSemverText (stripTagMarker t))

/-- `VersionManager.get_latest_version`: `self._versions[-1]`, or `None` when
no versions parsed. -/
def getLatestVersion (tags : List Text) : Option Version :=
  (parseVersions tags).getLast?

/-- `VersionManager.get_next_minor_version` -/
def getNextMinorVersion (tags : List Text) : Version :=
  match getLatestVersion tags with
  | none => ⟨0, 1, 0⟩
  | some latest => latest.bumpMinor

/-- `VersionManager.get_next_patch_version` -/
def getNextPatchVersion (tags : List Text) : Version :=
  match getLatestVersion tags with
  | none => ⟨0, 0, 1⟩
  | some latest => latest.bumpPatch

/-- `VersionManager.get_next_major_version` -/
def getNextMajorVersion (tags : List Text) : Version :=
  match getLatestVersion tags with
  | none => ⟨1, 0, 0⟩
  | some latest => latest.bumpMajor

/-- The `ValueError` raised by `suggest_version` for an unknown bump type. -/
inductive VersionErr : Type where
  | invalidBumpKind : VersionErr
deriving DecidableEq, Repr

/-- `VersionManager.suggest_version` -/
def suggestVersion (tags : List Text) (bumpType : Text) : Except VersionErr Version :=
  if bumpType = "major".data then .ok (getNextMajorVersion tags)
  else if bumpType = "minor".data then .ok (getNextMinorVersion tags)
  else if bumpType = "patch".data then .ok (getNextPatchVersion tags)
  else .error .invalidBumpKind

/-! ### Supporting lemmas: splitting and joining lines -/

theorem splitOnCharAux_ne_nil (c : Char) (cs acc : List Char) :
    splitOnCharAux c cs acc ≠ [] := by
  induction cs generalizing acc with
  | nil => simp [splitOnCharAux]
  | cons x xs ih =>
    simp only [splitOnCharAux]
    split
    · simp
    · exact ih _

theorem joinNl_cons (l : Line) (ls : List Line) (h : ls ≠ []) :
    joinNl (l :: ls) = l ++ '\n' :: joinNl ls := by
  cases ls with
  | nil => exact absurd rfl h
  | cons a as => rfl

theorem joinNl_splitOnCharAux (cs acc : List Char) :
    joinNl (splitOnCharAux '\n' cs acc) = acc.reverse ++ cs := by
  induction cs generalizing acc with
  | nil => simp [splitOnCharAux, joinNl]
  | cons x xs ih =>
    simp only [splitOnCharAux]
    by_cases hx : x = '\n'
    · subst hx
      rw [if_pos rfl, joinNl_cons _ _ (splitOnCharAux_ne_nil _ _ _), ih]
      simp
    · rw [if_neg hx, ih]
      simp

/-- Splitting on newlines and joining with newlines are mutually inverse,
as in Python (`"\n".join(text.split("\n")) == text`). -/
theorem joinNl_splitNl (s : Text) : joinNl (splitNl s) = s := by
  simpa using joinNl_splitOnCharAux s []

/-- A member line of a joined document is a contiguous substring of the
joined text. -/
theorem substring_of_mem_joinNl (l : Line) (ls : List Line) (h : l ∈ ls) :
    ∃ p q, joinNl ls = p ++ l ++ q := by
  induction ls with
  | nil => cases h
  | cons a t ih =>
    rcases List.mem_cons.mp h with rfl | ht
    · cases t with
      | nil => exact ⟨[], [], by simp [joinNl]⟩
      | cons b u => exact ⟨[], '\n' :: joinNl (b :: u), by simp [joinNl_cons]⟩
    · obtain ⟨p, q, hpq⟩ := ih ht
      cases t with
      | nil => cases ht
      | cons b u =>
        exact ⟨a ++ '\n' :: p, q, by
          rw [joinNl_cons _ _ (by simp), hpq]; simp⟩

/-! ### Supporting lemmas: index scans -/

theorem firstIdx?_eq_none_iff (p : Line → Bool) (ls : List Line) :
    firstIdx? p ls = none ↔ ∀ l ∈ ls, p l = false := by
  induction ls with
  | nil => simp [firstIdx?]
  | cons a t ih =>
    simp only [firstIdx?]
    by_cases h : p a
    · simp [h]
    · simp only [if_neg h, Option.map_eq_none', ih, List.mem_cons]
      constructor
      · rintro hall l (rfl | hl)
        · simpa using h
        · exact hall l hl
      · intro hall l hl
        exact hall l (Or.inr hl)

theorem firstIdx?_eq_some (p : Line → Bool) (ls : List Line) (k : Nat)
    (h : firstIdx? p ls = some k) :
    ∃ hk : k < ls.length, p ls[k] = true := by
  induction ls generalizing k with
  | nil => simp [firstIdx?] at h
  | cons a t ih =>
    simp only [firstIdx?] at h
    by_cases ha : p a
    · rw [if_pos ha] at h
      cases h
      exact ⟨by simp, by simpa using ha⟩
    · rw [if_neg ha] at h
      cases ht : firstIdx? p t with
      | none => rw [ht] at h; simp at h
      | some j =>
        rw [ht] at h
        simp only [Option.map_some'] at h
        obtain rfl : j + 1 = k := by simpa using h
        obtain ⟨hj, hp⟩ := ih j ht
        exact ⟨by simpa using Nat.succ_lt_succ hj, by simpa using hp⟩

theorem getElem_congr_idx (ls : List Line) (i j : Nat) (hij : i = j)
    (hi : i < ls.length) (hj : j < ls.length) : ls[i] = ls[j] := by
  subst hij; rfl

theorem get_drop_eq (ls : List Line) (s j : Nat) (h : j < (ls.drop s).length)
    (h2 : s + j < ls.length) :
    (ls.drop s)[j] = ls[s + j] := by
  induction s generalizing ls with
  | zero => simp
  | succ n ih =>
    cases ls with
    | nil => simp at h2
    | cons a t =>
      have h' : j < (t.drop n).length := by simpa using h
      have h2' : n + j < t.length := by simpa [Nat.succ_add] using h2
      calc ((a :: t).drop (n + 1))[j] = (t.drop n)[j] := by simp
        _ = t[n + j] := ih t h' h2'
        _ = (a :: t)[(n + j) + 1] := by simp
        _ = (a :: t)[n + 1 + j] :=
              getElem_congr_idx _ _ _ (by omega) (by simpa using h2') (by simpa using h2)

theorem firstIdxFrom?_eq_some_ge (p : Line → Bool) (ls : List Line) (s k : Nat)
    (h : firstIdxFrom? p ls s = some k) : s ≤ k := by
  unfold firstIdxFrom? at h
  cases hj : firstIdx? p (ls.drop s) with
  | none => rw [hj] at h; simp at h
  | some j =>
    rw [hj] at h
    obtain rfl : j + s = k := by simpa using h
    omega

theorem firstIdxFrom?_eq_some_get (p : Line → Bool) (ls : List Line) (s k : Nat)
    (h : firstIdxFrom? p ls s = some k) :
    ∃ hk : k < ls.length, p ls[k] = true := by
  unfold firstIdxFrom? at h
  cases hj : firstIdx? p (ls.drop s) with
  | none => rw [hj] at h; simp at h
  | some j =>
    rw [hj] at h
    obtain rfl : j + s = k := by simpa using h
    obtain ⟨hjlt, hp⟩ := firstIdx?_eq_some p (ls.drop s) j hj
    have hlen : s + j < ls.length := by
      have := hjlt
      simp only [List.length_drop] at this
      omega
    refine ⟨by omega, ?_⟩
    have hg : (ls.drop s)[j] = ls[s + j] := get_drop_eq ls s j hjlt hlen
    rw [hg] at hp
    have hc : ls[s + j] = ls[j + s] :=
      getElem_congr_idx _ _ _ (by omega) hlen (by omega)
    rw [hc] at hp
    exact hp

theorem firstIdxFrom?_eq_none_iff (p : Line → Bool) (ls : List Line) (s : Nat) :
    firstIdxFrom? p ls s = none ↔ ∀ l ∈ ls.drop s, p l = false := by
  unfold firstIdxFrom?
  rw [Option.map_eq_none']
  exact firstIdx?_eq_none_iff p (ls.drop s)

theorem firstIdxFrom?_self (p : Line → Bool) (ls : List Line) (s : Nat)
    (h : s < ls.length) (hp : p ls[s] = true) :
    firstIdxFrom? p ls s = some s := by
  unfold firstIdxFrom?
  rw [List.drop_eq_getElem_cons h]
  simp [firstIdx?, hp]

theorem firstIdxFrom?_succ (p : Line → Bool) (ls : List Line) (s : Nat)
    (h : s < ls.length) (hp : p ls[s] = false) :
    firstIdxFrom? p ls s = firstIdxFrom? p ls (s + 1) := by
  unfold firstIdxFrom?
  rw [List.drop_eq_getElem_cons h]
  simp only [firstIdx?, hp, Bool.false_eq_true, if_false]
  cases hj : firstIdx? p (ls.drop (s + 1)) with
  | none => simp
  | some j => simp; omega

/-! ### Supporting lemmas: stripping and blank lines -/

theorem dropWhile_dropWhile (p : Char → Bool) (l : List Char) :
    (l.dropWhile p).dropWhile p = l.dropWhile p := by
  induction l with
  | nil => rfl
  | cons a t ih =>
    by_cases h : p a
    · simp only [List.dropWhile_cons, h, if_pos]
      exact ih
    · simp [List.dropWhile_cons, h]

theorem pyRstrip_pyRstrip (l : List Char) : pyRstrip (pyRstrip l) = pyRstrip l := by
  unfold pyRstrip
  rw [List.reverse_reverse, dropWhile_dropWhile]

theorem pyStrip_pyRstrip (l : List Char) : pyStrip (pyRstrip l) = pyStrip l := by
  unfold pyStrip
  rw [pyRstrip_pyRstrip]

theorem isBlankLine_pyRstrip (l : Line) : isBlankLine (pyRstrip l) = isBlankLine l := by
  simp [isBlankLine, pyStrip_pyRstrip]

theorem mem_dropWhile_of_mem (p : Char → Bool) (l : List Char) (c : Char)
    (hc : c ∈ l) (hp : p c = false) : c ∈ l.dropWhile p := by
  induction l with
  | nil => cases hc
  | cons a t ih =>
    by_cases h : p a
    · rw [List.dropWhile_cons_of_pos h]
      rcases List.mem_cons.mp hc with rfl | h2
      · rw [hp] at h; cases h
      · exact ih h2
    · rw [List.dropWhile_cons_of_neg h]
      exact hc

theorem all_space_of_pyStrip_eq_nil (l : List Char) (h : pyStrip l = []) :
    ∀ c ∈ l, isPySpace c = true := by
  intro c hc
  by_contra hns
  have hns' : isPySpace c = false := by
    cases hx : isPySpace c
    · rfl
    · exact absurd hx hns
  have h1 : c ∈ pyRstrip l := by
    unfold pyRstrip
    exact List.mem_reverse.mpr (mem_dropWhile_of_mem _ _ _ (List.mem_reverse.mpr hc) hns')
  have h2 : c ∈ pyStrip l := mem_dropWhile_of_mem _ _ _ h1 hns'
  rw [h] at h2
  cases h2

theorem isBlankLine_versionHeaderLine (v d : Text) :
    isBlankLine (versionHeaderLine v d) = false := by
  cases hb : isBlankLine (versionHeaderLine v d)
  · rfl
  · exfalso
    have hnil : pyStrip (versionHeaderLine v d) = [] := by
      have := hb
      simp only [isBlankLine, List.isEmpty_iff] at this
      exact this
    have hmem : ('#' : Char) ∈ versionHeaderLine v d := by
      unfold versionHeaderLine
      have : ('#' : Char) ∈ "## ".data := by decide
      exact List.mem_append.mpr (Or.inl (List.mem_append.mpr (Or.inl (List.mem_append.mpr (Or.inl this)))))
    have := all_space_of_pyStrip_eq_nil _ hnil '#' hmem
    exact absurd this (by decide)

theorem isBlankLine_of_isSectionStart (l : Line) (h : isSectionStart l = true) :
    isBlankLine l = false := by
  unfold isSectionStart at h
  simp only [Bool.and_eq_true] at h
  have h1 : List.isPrefixOf "## ".data (pyStrip l) = true := h.1
  cases hps : pyStrip l with
  | cons a t => simp [isBlankLine, hps]
  | nil =>
    exfalso
    rw [hps] at h1
    exact absurd h1 (by decide)

/-! ### Supporting lemmas: filtering and blank-trimming -/

theorem filter_dropWhile_blank (ls : List Line) :
    ((ls.dropWhile isBlankLine).filter fun l => !(isBlankLine l)) =
      ls.filter fun l => !(isBlankLine l) := by
  induction ls with
  | nil => rfl
  | cons a t ih =>
    by_cases h : isBlankLine a
    · rw [List.dropWhile_cons_of_pos h, ih]
      simp [List.filter_cons, h]
    · rw [List.dropWhile_cons_of_neg h]

theorem filter_trimBlankLines (ls : List Line) :
    ((trimBlankLines ls).filter fun l => !(isBlankLine l)) =
      ls.filter fun l => !(isBlankLine l) := by
  unfold trimBlankLines
  rw [List.filter_reverse, filter_dropWhile_blank, List.filter_reverse,
    List.reverse_reverse, filter_dropWhile_blank]

theorem trimBlankLines_eq_nil (ls : List Line) (h : ∀ l ∈ ls, isBlankLine l = true) :
    trimBlankLines ls = [] := by
  unfold trimBlankLines
  have h1 : ls.dropWhile isBlankLine = [] := by
    rw [List.dropWhile_eq_nil_iff]
    intro x hx
    exact h x hx
  rw [h1]
  rfl

/-- The extraction loop of `extract_unreleased_content` equals: keep the
non-blank lines, strip trailing whitespace from each. -/
theorem filterMap_rstrip_eq (ls : List Line) :
    (ls.filterMap fun l =>
      let r := pyRstrip l
      if (pyStrip r).isEmpty then none else some r) =
    ((ls.filter fun l => !(isBlankLine l)).map pyRstrip) := by
  induction ls with
  | nil => rfl
  | cons a t ih =>
    simp only [List.filterMap_cons, List.filter_cons, pyStrip_pyRstrip]
    by_cases h : (pyStrip a).isEmpty
    · simpa [isBlankLine, h, pyStrip_pyRstrip] using ih
    · simpa [isBlankLine, h, pyStrip_pyRstrip] using ih

/-! ### Supporting lemmas: evaluating the engine operations -/

theorem findUnreleasedSection_err (lines : List Line)
    (h : firstIdx? isUnreleasedLine lines = none) :
    findUnreleasedSection lines = .error .sectionNotFound := by
  unfold findUnreleasedSection
  rw [h]

/-- Unfolding equation for `findUnreleasedSection` once the header index is
known. -/
theorem findUnreleasedSection_some_eq (lines : List Line) (u : Nat)
    (hu : firstIdx? isUnreleasedLine lines = some u) :
    findUnreleasedSection lines =
      match firstIdxFrom? (fun l => !(isBlankLine l)) lines (u + 1) with
      | none => .ok (lines.length, lines.length)
      | some j =>
        match firstIdxFrom? isSectionStart lines j with
        | none => .ok (j, lines.length)
        | some k => .ok (j, k) := by
  unfold findUnreleasedSection
  rw [hu]

theorem findUnreleasedSection_ok (lines : List Line) (u : Nat)
    (hu : firstIdx? isUnreleasedLine lines = some u) :
    ∃ cs ce, findUnreleasedSection lines = .ok (cs, ce) := by
  rw [findUnreleasedSection_some_eq lines u hu]
  cases h1 : firstIdxFrom? (fun l => !(isBlankLine l)) lines (u + 1) with
  | none => exact ⟨_, _, rfl⟩
  | some j =>
    show ∃ cs ce, (match firstIdxFrom? isSectionStart lines j with
      | none => (.ok (j, lines.length) : Except ChangelogErr (Nat × Nat))
      | some k => .ok (j, k)) = .ok (cs, ce)
    cases h2 : firstIdxFrom? isSectionStart lines j with
    | none => exact ⟨_, _, rfl⟩
    | some k => exact ⟨_, _, rfl⟩

/-- The located `contentEnd` is at most the line count, and any `contentEnd`
strictly inside the document is a `## `-section start line (hence non-blank). -/
theorem findUnreleasedSection_contentEnd (lines : List Line) (cs ce : Nat)
    (h : findUnreleasedSection lines = .ok (cs, ce)) :
    ce ≤ lines.length ∧ ∀ hlt : ce < lines.length, isSectionStart lines[ce] = true := by
  cases h0 : firstIdx? isUnreleasedLine lines with
  | none => rw [findUnreleasedSection_err _ h0] at h; cases h
  | some u =>
    rw [findUnreleasedSection_some_eq lines u h0] at h
    cases h1 : firstIdxFrom? (fun l => !(isBlankLine l)) lines (u + 1) with
    | none =>
      rw [h1] at h
      cases h
      exact ⟨Nat.le_refl _, fun hlt => absurd hlt (Nat.lt_irrefl _)⟩
    | some j =>
      rw [h1] at h
      replace h : (match firstIdxFrom? isSectionStart lines j with
        | none => (.ok (j, lines.length) : Except ChangelogErr (Nat × Nat))
        | some k => .ok (j, k)) = .ok (cs, ce) := h
      cases h2 : firstIdxFrom? isSectionStart lines j with
      | none =>
        rw [h2] at h
        cases h
        exact ⟨Nat.le_refl _, fun hlt => absurd hlt (Nat.lt_irrefl _)⟩
      | some k =>
        rw [h2] at h
        cases h
        obtain ⟨hk, hsec⟩ := firstIdxFrom?_eq_some_get _ _ _ _ h2
        exact ⟨Nat.le_of_lt hk, fun _ => hsec⟩

theorem extractUnreleasedContent_some (text : Text) :
    extractUnreleasedContent (some text) = extractFromText text := rfl

theorem extractFromText_eq_ok (text : Text) (cs ce : Nat)
    (hf : findUnreleasedSection (splitNl text) = .ok (cs, ce)) :
    extractFromText text =
      .ok (((((splitNl text).drop cs).take (ce - cs)).filter
        fun l => !(isBlankLine l)).map pyRstrip) := by
  rw [← filterMap_rstrip_eq]
  unfold extractFromText
  rw [hf]

theorem extractFromText_err (text : Text)
    (h : firstIdx? isUnreleasedLine (splitNl text) = none) :
    extractFromText text = .error .sectionNotFound := by
  unfold extractFromText
  rw [findUnreleasedSection_err _ h]

theorem moveUnreleasedToVersion_invalidDate (file : Option Text) (v d : Text)
    (h : validDate d = false) :
    moveUnreleasedToVersion file v d = .error .invalidDate := by
  unfold moveUnreleasedToVersion
  rw [h]
  simp

theorem moveUnreleasedToVersion_some (text v d : Text) (h : validDate d = true) :
    moveUnreleasedToVersion (some text) v d = moveText text v d := by
  unfold moveUnreleasedToVersion
  rw [h]
  simp [readChangelog]

theorem moveText_err (text v d : Text)
    (h : firstIdx? isUnreleasedLine (splitNl text) = none) :
    moveText text v d = .error .sectionNotFound := by
  unfold moveText
  rw [h]

/-- Unfolding equation for `moveText` once the header index and the content
range are known. -/
theorem moveText_eq_ok (text v d : Text) (u cs ce : Nat)
    (hu : firstIdx? isUnreleasedLine (splitNl text) = some u)
    (hf : findUnreleasedSection (splitNl text) = .ok (cs, ce)) :
    moveText text v d =
      .ok (joinNl (
        (splitNl text).take (u + 1) ++ [emptyLine] ++
        (if (trimBlankLines (((splitNl text).drop cs).take (ce - cs))).isEmpty then []
         else versionHeaderLine v d :: emptyLine ::
              (trimBlankLines (((splitNl text).drop cs).take (ce - cs)) ++ [emptyLine])) ++
        (splitNl text).drop ce)) := by
  unfold moveText
  rw [hu, hf]

/-! ### Claim theorems -/

/-- C5: on any document with no line whose trimmed text case-insensitively
equals `## Unreleased`, both `extract_unreleased_content` and
`move_unreleased_to_version` (called with a valid date) fail with the
section-not-found error rather than silently returning an empty result; when
such a header line is present, both succeed, and when the located content
range holds only blank lines (header present but section empty) extraction
succeeds with the empty list. -/
theorem extract_and_move_fail_without_header (text v d : Text)
    (hd : validDate d = true) :
    ((∀ l ∈ splitNl text, isUnreleasedLine l = false) →
      extractUnreleasedContent (some text) = .error .sectionNotFound ∧
      moveUnreleasedToVersion (some text) v d = .error .sectionNotFound) ∧
    ((∃ l ∈ splitNl text, isUnreleasedLine l = true) →
      (∃ r, extractUnreleasedContent (some text) = .ok r) ∧
      (∃ o, moveUnreleasedToVersion (some text) v d = .ok o)) ∧
    (∀ cs ce, findUnreleasedSection (splitNl text) = .ok (cs, ce) →
      (∀ l ∈ ((splitNl text).drop cs).take (ce - cs), isBlankLine l = true) →
      extractUnreleasedContent (some text) = .ok []) := by
  refine ⟨?_, ?_, ?_⟩
  · intro hno
    have h0 : firstIdx? isUnreleasedLine (splitNl text) = none :=
      (firstIdx?_eq_none_iff _ _).mpr hno
    refine ⟨?_, ?_⟩
    · rw [extractUnreleasedContent_some, extractFromText_err _ h0]
    · rw [moveUnreleasedToVersion_some _ _ _ hd, moveText_err _ _ _ h0]
  · intro hyes
    cases h0 : firstIdx? isUnreleasedLine (splitNl text) with
    | none =>
      exfalso
      obtain ⟨l, hl, hp⟩ := hyes
      have := (firstIdx?_eq_none_iff _ _).mp h0 l hl
      rw [hp] at this
      cases this
    | some u =>
      obtain ⟨cs, ce, hf⟩ := findUnreleasedSection_ok _ _ h0
      constructor
      · exact ⟨_, by rw [extractUnreleasedContent_some, extractFromText_eq_ok _ _ _ hf]⟩
      · rw [moveUnreleasedToVersion_some _ _ _ hd, moveText_eq_ok _ v d _ _ _ h0 hf]
        exact ⟨_, rfl⟩
  · intro cs ce hf hblank
    rw [extractUnreleasedContent_some, extractFromText_eq_ok _ _ _ hf]
    have hfil : (((splitNl text).drop cs).take (ce - cs)).filter
        (fun l => !(isBlankLine l)) = [] := by
      rw [List.filter_eq_nil_iff]
      intro a ha
      simp [hblank a ha]
    rw [hfil]
    rfl

theorem extract_and_move_fail_without_header_witness :
    extractUnreleasedContent (some "# Changelog".data) = .error .sectionNotFound := by
  exact ((extract_and_move_fail_without_header "# Changelog".data []
    "2024-01-15".data (by decide)).1 (by decide)).1

/-- C9: `has_unreleased_content` is total: it returns `false` whenever
extraction fails with any changelog error (including a missing file or a
missing header), and returns `true` exactly when extraction succeeds with at
least one non-blank line. -/
theorem has_unreleased_content_total (file : Option Text) :
    (∀ e, extractUnreleasedContent file = .error e → hasUnreleasedContent file = false) ∧
    (hasUnreleasedContent file = true ↔
      ∃ c, extractUnreleasedContent file = .ok c ∧ c ≠ []) := by
  unfold hasUnreleasedContent
  cases hx : extractUnreleasedContent file with
  | error e => simp
  | ok c =>
    constructor
    · intro e he
      cases he
    · simp only [decide_eq_true_eq, Except.ok.injEq]
      constructor
      · intro hlen
        exact ⟨c, rfl, (List.length_pos).mp hlen⟩
      · rintro ⟨c2, rfl, hne⟩
        exact (List.length_pos).mpr hne

theorem has_unreleased_content_total_witness :
    hasUnreleasedContent (some "## Unreleased\n\n- x\n".data) = true := by
  exact (has_unreleased_content_total (some "## Unreleased\n\n- x\n".data)).2.mpr
    ⟨["- x".data], by rfl, by decide⟩

/-- C3: on any document containing an Unreleased header (with a valid date),
the rewritten document consists of the unchanged lines up to and including the
header line, some middle segment, and the unchanged lines from the located
`contentEnd` index onward, in order. -/
theorem move_preserves_frame (text v d : Text) (u cs ce : Nat)
    (hd : validDate d = true)
    (hu : firstIdx? isUnreleasedLine (splitNl text) = some u)
    (hf : findUnreleasedSection (splitNl text) = .ok (cs, ce)) :
    ∃ mid, moveUnreleasedToVersion (some text) v d =
      .ok (joinNl ((splitNl text).take (u + 1) ++ mid ++ (splitNl text).drop ce)) := by
  rw [moveUnreleasedToVersion_some _ _ _ hd, moveText_eq_ok _ v d _ _ _ hu hf]
  refine ⟨[emptyLine] ++
    (if (trimBlankLines (((splitNl text).drop cs).take (ce - cs))).isEmpty then []
     else versionHeaderLine v d :: emptyLine ::
          (trimBlankLines (((splitNl text).drop cs).take (ce - cs)) ++ [emptyLine])), ?_⟩
  simp [List.append_assoc]

theorem move_preserves_frame_witness :
    ∃ mid, moveUnreleasedToVersion (some "## Unreleased\n\n- x\n".data)
        "1.0.0".data "2024-01-15".data =
      .ok (joinNl ((splitNl "## Unreleased\n\n- x\n".data).take 1 ++ mid ++
        (splitNl "## Unreleased\n\n- x\n".data).drop 4)) := by
  exact move_preserves_frame "## Unreleased\n\n- x\n".data "1.0.0".data
    "2024-01-15".data 0 2 4 (by decide) (by decide) (by rfl)

/-- C10: in every successful rewrite, the line immediately after the
Unreleased header line is exactly one blank line; the rest of the output
starts with the inserted version header (itself non-blank) when content was
moved, and with the original lines from `contentEnd` when not; moreover any
`contentEnd` inside the document is a non-blank line, so the next non-blank
line after the inserted blank is the version header or the original line at
`contentEnd`. -/
theorem move_single_blank_after_header (text v d : Text) (u cs ce : Nat)
    (hd : validDate d = true)
    (hu : firstIdx? isUnreleasedLine (splitNl text) = some u)
    (hf : findUnreleasedSection (splitNl text) = .ok (cs, ce)) :
    ∃ rest, moveUnreleasedToVersion (some text) v d =
        .ok (joinNl ((splitNl text).take (u + 1) ++ emptyLine :: rest)) ∧
      (trimBlankLines (((splitNl text).drop cs).take (ce - cs)) ≠ [] →
         rest.head? = some (versionHeaderLine v d) ∧
         isBlankLine (versionHeaderLine v d) = false) ∧
      (trimBlankLines (((splitNl text).drop cs).take (ce - cs)) = [] →
         rest = (splitNl text).drop ce) ∧
      (∀ hlt : ce < (splitNl text).length,
         isBlankLine ((splitNl text)[ce]) = false ∧
         ((splitNl text).drop ce).head? = some ((splitNl text)[ce])) := by
  rw [moveUnreleasedToVersion_some _ _ _ hd, moveText_eq_ok _ v d _ _ _ hu hf]
  refine ⟨(if (trimBlankLines (((splitNl text).drop cs).take (ce - cs))).isEmpty then []
     else versionHeaderLine v d :: emptyLine ::
          (trimBlankLines (((splitNl text).drop cs).take (ce - cs)) ++ [emptyLine])) ++
    (splitNl text).drop ce, ?_, ?_, ?_, ?_⟩
  · simp [List.append_assoc]
  · intro hne
    have hem : (trimBlankLines (((splitNl text).drop cs).take (ce - cs))).isEmpty = false := by
      simp [List.isEmpty_iff, hne]
    rw [hem]
    simp [isBlankLine_versionHeaderLine]
  · intro hnil
    rw [hnil]
    simp
  · intro hlt
    obtain ⟨_, hsec⟩ := findUnreleasedSection_contentEnd _ _ _ hf
    refine ⟨isBlankLine_of_isSectionStart _ (hsec hlt), ?_⟩
    rw [List.drop_eq_getElem_cons hlt]
    simp

theorem move_single_blank_after_header_witness :
    ∃ rest, moveUnreleasedToVersion (some "## Unreleased\n\n\n- x\n".data)
        "1.0.0".data "2024-01-15".data =
      .ok (joinNl ((splitNl "## Unreleased\n\n\n- x\n".data).take 1 ++ emptyLine :: rest)) := by
  obtain ⟨rest, h1, _⟩ := move_single_blank_after_header "## Unreleased\n\n\n- x\n".data
    "1.0.0".data "2024-01-15".data 0 3 5 (by decide) (by decide) (by rfl)
  exact ⟨rest, h1⟩

/-- C1 counterexample: the document `"## Unreleased"` has an empty Unreleased
section (extraction returns the empty list), yet the rewrite is not textually
the identity: the blank-line run after the header (here of length zero) is
normalized to exactly one blank line. -/
theorem move_on_empty_not_identity :
    extractUnreleasedContent (some "## Unreleased".data) = .ok [] ∧
    moveUnreleasedToVersion (some "## Unreleased".data) "1.0.0".data "2024-01-15".data =
      .ok ("## Unreleased\n".data) ∧
    "## Unreleased\n".data ≠ "## Unreleased".data := by
  refine ⟨by rfl, by rfl, by decide⟩

/-- C1 (amended): on a document whose Unreleased section is empty, the rewrite
inserts no new version section and replaces the region between the header line
and `contentEnd` by a single blank line; in particular the output is textually
identical to the input whenever that region already consists of exactly one
blank line. -/
theorem move_on_empty_is_normalized_identity (text v d : Text) (u cs ce : Nat)
    (hd : validDate d = true)
    (hu : firstIdx? isUnreleasedLine (splitNl text) = some u)
    (hf : findUnreleasedSection (splitNl text) = .ok (cs, ce))
    (hempty : extractUnreleasedContent (some text) = .ok []) :
    moveUnreleasedToVersion (some text) v d =
      .ok (joinNl ((splitNl text).take (u + 1) ++ [emptyLine] ++ (splitNl text).drop ce)) ∧
    (splitNl text = (splitNl text).take (u + 1) ++ [emptyLine] ++ (splitNl text).drop ce →
      moveUnreleasedToVersion (some text) v d = .ok text) := by
  have hseg : ∀ l ∈ ((splitNl text).drop cs).take (ce - cs), isBlankLine l = true := by
    rw [extractUnreleasedContent_some, extractFromText_eq_ok _ _ _ hf] at hempty
    have hmap : ((((splitNl text).drop cs).take (ce - cs)).filter
        (fun l => !(isBlankLine l))).map pyRstrip = [] := by
      exact (Except.ok.injEq _ _).mp hempty.symm |>.symm
    have hfil : (((splitNl text).drop cs).take (ce - cs)).filter
        (fun l => !(isBlankLine l)) = [] := List.map_eq_nil_iff.mp hmap
    intro l hl
    have := List.filter_eq_nil_iff.mp hfil l hl
    cases hb : isBlankLine l
    · exfalso
      apply this
      simp [hb]
    · rfl
  have htrim : trimBlankLines (((splitNl text).drop cs).take (ce - cs)) = [] :=
    trimBlankLines_eq_nil _ hseg
  have hmain : moveUnreleasedToVersion (some text) v d =
      .ok (joinNl ((splitNl text).take (u + 1) ++ [emptyLine] ++ (splitNl text).drop ce)) := by
    rw [moveUnreleasedToVersion_some _ _ _ hd, moveText_eq_ok _ v d _ _ _ hu hf, htrim]
    simp
  refine ⟨hmain, fun hid => ?_⟩
  rw [hmain, ← hid, joinNl_splitNl]

theorem move_on_empty_is_normalized_identity_witness :
    moveUnreleasedToVersion (some "## Unreleased\n".data) "1.0.0".data "2024-01-15".data =
      .ok ("## Unreleased\n".data) := by
  exact (move_on_empty_is_normalized_identity "## Unreleased\n".data "1.0.0".data
    "2024-01-15".data 0 2 2 (by decide) (by decide) (by rfl) (by rfl)).2 (by decide)

/-- C2 counterexample: extraction strips trailing whitespace from each kept
line, while the rewrite copies the content lines verbatim into the new version
section.  On a document whose content line carries trailing whitespace
(`"- a "`), the extracted sequence (`"- a"`) differs from the non-blank lines
of the newly created version section (`"- a "`).  Here the input has no
following section, so everything after the new header line (line index 2 of
the output) is the new version section. -/
theorem extract_vs_moved_content_counterexample :
    extractUnreleasedContent (some "## Unreleased\n\n- a \n".data) = .ok ["- a".data] ∧
    moveUnreleasedToVersion (some "## Unreleased\n\n- a \n".data)
        "1.0.0".data "2024-01-15".data =
      .ok "## Unreleased\n\n## 1.0.0 - 2024-01-15\n\n- a \n".data ∧
    splitNl "## Unreleased\n\n## 1.0.0 - 2024-01-15\n\n- a \n".data =
      ["## Unreleased".data, [], "## 1.0.0 - 2024-01-15".data, [], "- a ".data, []] ∧
    ((splitNl "## Unreleased\n\n## 1.0.0 - 2024-01-15\n\n- a \n".data).drop 3).filter
        (fun l => !(isBlankLine l)) = ["- a ".data] ∧
    (["- a".data] : List Line) ≠ [("- a ".data : Line)] := by
  refine ⟨by rfl, by rfl, by decide, by decide, by decide⟩

/-- C2 (amended): for a document with a non-empty Unreleased section, the
extracted sequence equals the non-blank lines of the newly created version
section (the segment `mid` strictly between the new header line and the
resumed original content) after stripping trailing whitespace from each. -/
theorem extract_matches_moved_content (text v d : Text) (u cs ce : Nat)
    (hd : validDate d = true)
    (hu : firstIdx? isUnreleasedLine (splitNl text) = some u)
    (hf : findUnreleasedSection (splitNl text) = .ok (cs, ce))
    (c : List Line)
    (hex : extractUnreleasedContent (some text) = .ok c) (hne : c ≠ []) :
    ∃ mid, moveUnreleasedToVersion (some text) v d =
        .ok (joinNl ((splitNl text).take (u + 1) ++ [emptyLine] ++
          versionHeaderLine v d :: mid ++ (splitNl text).drop ce)) ∧
      mid = emptyLine ::
        (trimBlankLines (((splitNl text).drop cs).take (ce - cs)) ++ [emptyLine]) ∧
      c = (mid.filter fun l => !(isBlankLine l)).map pyRstrip := by
  rw [extractUnreleasedContent_some, extractFromText_eq_ok _ _ _ hf] at hex
  have hc : c = ((((splitNl text).drop cs).take (ce - cs)).filter
      (fun l => !(isBlankLine l))).map pyRstrip :=
    ((Except.ok.injEq _ _).mp hex).symm
  have hfilne : (((splitNl text).drop cs).take (ce - cs)).filter
      (fun l => !(isBlankLine l)) ≠ [] := by
    intro hnil
    apply hne
    rw [hc, hnil]
    rfl
  have htrimne : trimBlankLines (((splitNl text).drop cs).take (ce - cs)) ≠ [] := by
    intro hnil
    apply hfilne
    rw [← filter_trimBlankLines, hnil]
    rfl
  have hem : (trimBlankLines (((splitNl text).drop cs).take (ce - cs))).isEmpty = false := by
    simp [List.isEmpty_iff, htrimne]
  refine ⟨emptyLine ::
    (trimBlankLines (((splitNl text).drop cs).take (ce - cs)) ++ [emptyLine]), ?_, rfl, ?_⟩
  · rw [moveUnreleasedToVersion_some _ _ _ hd, moveText_eq_ok _ v d _ _ _ hu hf, hem]
    simp [List.append_assoc]
  · have hblank : isBlankLine emptyLine = true := by decide
    rw [hc]
    simp only [List.filter_cons, hblank, Bool.not_true, Bool.false_eq_true, if_false,
      List.filter_append]
    simp [filter_trimBlankLines]

theorem extract_matches_moved_content_witness :
    ∃ mid, moveUnreleasedToVersion (some "## Unreleased\n\n- x\n".data)
        "1.0.0".data "2024-01-15".data =
      .ok (joinNl ((splitNl "## Unreleased\n\n- x\n".data).take 1 ++ [emptyLine] ++
        versionHeaderLine "1.0.0".data "2024-01-15".data :: mid ++
        (splitNl "## Unreleased\n\n- x\n".data).drop 4)) := by
  obtain ⟨mid, h1, _⟩ := extract_matches_moved_content "## Unreleased\n\n- x\n".data
    "1.0.0".data "2024-01-15".data 0 2 4 (by decide) (by decide) (by rfl)
    ["- x".data] (by rfl) (by decide)
  exact ⟨mid, h1⟩

/-- C4 counterexample: the boundary predicates apply to each line's trimmed
text, not to the raw line.  In the document below the first non-blank line
after the header is `" ## 1.0.0 - 2024-01-01"` (leading space), which does
not literally start with `## ` — so the claim's "otherwise" branch applies
and, no later line literally starting with `## ` existing, it predicts
`contentEnd = length = 2`; the code instead treats the trimmed line as a
section start and returns `(1, 1)`. -/
theorem locate_section_literal_counterexample :
    List.isPrefixOf "## ".data " ## 1.0.0 - 2024-01-01".data = false ∧
    firstIdx? isUnreleasedLine
      ["## Unreleased".data, " ## 1.0.0 - 2024-01-01".data] = some 0 ∧
    firstIdxFrom? (fun l => !(isBlankLine l))
      ["## Unreleased".data, " ## 1.0.0 - 2024-01-01".data] 1 = some 1 ∧
    findUnreleasedSection ["## Unreleased".data, " ## 1.0.0 - 2024-01-01".data] =
      .ok (1, 1) ∧
    ¬ findUnreleasedSection ["## Unreleased".data, " ## 1.0.0 - 2024-01-01".data] =
      .ok (1, 2) := by
  refine ⟨by decide, by decide, by decide, by rfl, ?_⟩
  intro h
  rw [show findUnreleasedSection
      ["## Unreleased".data, " ## 1.0.0 - 2024-01-01".data] = .ok (1, 1) from rfl] at h
  exact absurd ((Except.ok.injEq _ _).mp h) (by decide)

/-- C4 (amended): on any line sequence containing an Unreleased header (first
header at index `u`), the section-boundary computation follows the three
specified branches, with the boundary predicates applied to each line's
trimmed text: a line "starts a new `## `-level section" when its trimmed text
begins with `## ` and it is not itself an Unreleased header (`isSectionStart`,
exactly the engine's matching).  If no non-blank line follows the header,
`contentStart = contentEnd = length`; if the first non-blank line `j` after
the header starts a new section, `contentStart = contentEnd = j`; otherwise
`contentStart = j` and `contentEnd` is the first subsequent section-start
index, or `length`. -/
theorem locate_section_branches (lines : List Line) (u : Nat)
    (hu : firstIdx? isUnreleasedLine lines = some u) :
    (firstIdxFrom? (fun l => !(isBlankLine l)) lines (u + 1) = none →
       findUnreleasedSection lines = .ok (lines.length, lines.length)) ∧
    (∀ j (hj : j < lines.length),
       firstIdxFrom? (fun l => !(isBlankLine l)) lines (u + 1) = some j →
       (isSectionStart lines[j] = true → findUnreleasedSection lines = .ok (j, j)) ∧
       (isSectionStart lines[j] = false →
          findUnreleasedSection lines =
            .ok (j, (firstIdxFrom? isSectionStart lines (j + 1)).getD lines.length))) := by
  rw [findUnreleasedSection_some_eq lines u hu]
  constructor
  · intro h1
    rw [h1]
  · intro j hj h1
    rw [h1]
    show (isSectionStart lines[j] = true →
        (match firstIdxFrom? isSectionStart lines j with
          | none => (.ok (j, lines.length) : Except ChangelogErr (Nat × Nat))
          | some k => .ok (j, k)) = .ok (j, j)) ∧
      (isSectionStart lines[j] = false →
        (match firstIdxFrom? isSectionStart lines j with
          | none => (.ok (j, lines.length) : Except ChangelogErr (Nat × Nat))
          | some k => .ok (j, k)) =
          .ok (j, (firstIdxFrom? isSectionStart lines (j + 1)).getD lines.length))
    constructor
    · intro hsec
      rw [firstIdxFrom?_self _ _ _ hj hsec]
    · intro hsec
      rw [firstIdxFrom?_succ _ _ _ hj hsec]
      cases h2 : firstIdxFrom? isSectionStart lines (j + 1) with
      | none => simp
      | some k => simp

theorem locate_section_branches_witness :
    findUnreleasedSection
        (splitNl "## Unreleased\n\n## 1.0.0 - 2024-01-15\n- y\n".data) = .ok (2, 2) := by
  exact (((locate_section_branches
    (splitNl "## Unreleased\n\n## 1.0.0 - 2024-01-15\n- y\n".data) 0 (by decide)).2
    2 (by decide) (by decide)).1 (by decide))

/-- C6 (code bug): date validation delegates to `strptime("%Y-%m-%d")`, which
accepts non-zero-padded months/days.  The date `"2024-1-5"` is not a valid
`YYYY-MM-DD` date, yet the rewrite succeeds instead of failing with the
invalid-date error, and it writes a version header that the repository's own
`validate_changelog_format` then flags as malformed (its date pattern is
`\d{4}-\d{2}-\d{2}`). -/
theorem move_accepts_malformed_date :
    validDate "2024-1-5".data = true ∧
    moveUnreleasedToVersion (some "## Unreleased\n\n- x\n".data)
        "1.0.0".data "2024-1-5".data =
      .ok "## Unreleased\n\n## 1.0.0 - 2024-1-5\n\n- x\n".data ∧
    versionHeaderShape (pyStrip "## 1.0.0 - 2024-1-5".data) = false ∧
    invalidHeaderMsg 3 "## 1.0.0 - 2024-1-5".data ∈
      validateChangelogFormat (some "## Unreleased\n\n## 1.0.0 - 2024-1-5\n\n- x\n".data) := by
  refine ⟨by decide, by rfl, by decide, by decide⟩

/-- In a `vle`-sorted list, the last element bounds every member. -/
theorem sorted_getLast?_max :
    ∀ (l : List Version) (v : Version), List.Sorted vle l → l.getLast? = some v →
      ∀ w ∈ l, vle w v := by
  intro l
  induction l with
  | nil => intro v _ h; simp at h
  | cons a t ih =>
    intro v hs h w hw
    cases t with
    | nil =>
      have ha : a = v := by simpa using h
      have hwa : w = a := by simpa using hw
      subst ha
      subst hwa
      exact Or.inr rfl
    | cons b u =>
      have h' : (b :: u).getLast? = some v := by simpa using h
      rw [List.sorted_cons] at hs
      rcases List.mem_cons.mp hw with rfl | hw2
      · exact hs.1 v (List.mem_of_getLast?_eq_some h')
      · exact ih v hs.2 h' w hw2

/-- C7: the catalog parses tags (stripping one recognised marker, dropping
unparseable remainders) into an ascending-sorted list; `suggest` bumps the
latest (maximum) version when one exists, returns the documented baselines on
an empty catalog, and fails with the invalid-bump-kind error on any other
bump-type string; the concrete scenario from the spec behaves as stated. -/
theorem suggest_version_correct (tags : List Text) (bt : Text) :
    List.Sorted vle (parseVersions tags) ∧
    (getLatestVersion tags = none →
       parseVersions tags = [] ∧
       suggestVersion tags "major".data = .ok ⟨1, 0, 0⟩ ∧
       suggestVersion tags "minor".data = .ok ⟨0, 1, 0⟩ ∧
       suggestVersion tags "patch".data = .ok ⟨0, 0, 1⟩) ∧
    (∀ v, getLatestVersion tags = some v →
       v ∈ parseVersions tags ∧ (∀ w ∈ parseVersions tags, vle w v) ∧
       suggestVersion tags "major".data = .ok v.bumpMajor ∧
       suggestVersion tags "minor".data = .ok v.bumpMinor ∧
       suggestVersion tags "patch".data = .ok v.bumpPatch) ∧
    (bt ≠ "major".data → bt ≠ "minor".data → bt ≠ "patch".data →
       suggestVersion tags bt = .error .invalidBumpKind) ∧
    (getLatestVersion
        ["1.0.0".data, "v1.1.0".data, "invalid-tag".data, "release-1.1.1".data] =
        some ⟨1, 1, 1⟩ ∧
     suggestVersion
        ["1.0.0".data, "v1.1.0".data, "invalid-tag".data, "release-1.1.1".data]
        "minor".data = .ok ⟨1, 2, 0⟩ ∧
     suggestVersion
        ["1.0.0".data, "v1.1.0".data, "invalid-tag".data, "release-1.1.1".data]
        "patch".data = .ok ⟨1, 1, 2⟩ ∧
     suggestVersion
        ["1.0.0".data, "v1.1.0".data, "invalid-tag".data, "release-1.1.1".data]
        "major".data = .ok ⟨2, 0, 0⟩) := by
  have hsorted : List.Sorted vle (parseVersions tags) := List.sorted_insertionSort vle _
  refine ⟨hsorted, ?_, ?_, ?_, ?_⟩
  · intro hnone
    have hnil : parseVersions tags = [] := by
      have := hnone
      unfold getLatestVersion at this
      exact List.getLast?_eq_none_iff.mp this
    refine ⟨hnil, ?_, ?_, ?_⟩
    · show Except.ok (getNextMajorVersion tags) = _
      unfold getNextMajorVersion
      rw [hnone]
    · show Except.ok (getNextMinorVersion tags) = _
      unfold getNextMinorVersion
      rw [hnone]
    · show Except.ok (getNextPatchVersion tags) = _
      unfold getNextPatchVersion
      rw [hnone]
  · intro v hv
    have hmem : v ∈ parseVersions tags := by
      unfold getLatestVersion at hv
      exact List.mem_of_getLast?_eq_some hv
    refine ⟨hmem, sorted_getLast?_max _ v hsorted hv, ?_, ?_, ?_⟩
    · show Except.ok (getNextMajorVersion tags) = _
      unfold getNextMajorVersion
      rw [hv]
    · show Except.ok (getNextMinorVersion tags) = _
      unfold getNextMinorVersion
      rw [hv]
    · show Except.ok (getNextPatchVersion tags) = _
      unfold getNextPatchVersion
      rw [hv]
  · intro h1 h2 h3
    unfold suggestVersion
    rw [if_neg h1, if_neg h2, if_neg h3]
  · exact ⟨by rfl, by rfl, by rfl, by rfl⟩

theorem suggest_version_correct_witness :
    suggestVersion (["2.3.4".data] : List Text) "bad".data = .error .invalidBumpKind := by
  exact (suggest_version_correct ["2.3.4".data] "bad".data).2.2.2.1
    (by decide) (by decide) (by decide)

theorem validateChangelogFormat_some (text : Text) :
    validateChangelogFormat (some text) =
      (if (splitNl text).any isUnreleasedLine then [] else [missingUnreleasedMsg]) ++
      (splitNl text).enum.filterMap (fun p =>
        if List.isPrefixOf "## ".data (pyStrip p.2) && !(isUnreleasedLine p.2) then
          if versionHeaderShape (pyStrip p.2) then none
          else some (invalidHeaderMsg (p.1 + 1) p.2)
        else none) := rfl

/-- A per-line format issue never collides with the missing-section issue
(their texts start with different characters). -/
theorem invalidHeaderMsg_ne_missing (n : Nat) (l : Line) :
    invalidHeaderMsg n l ≠ missingUnreleasedMsg := by
  intro h
  have hh := congrArg List.head? h
  have hL : ("Line ".data : List Char) = 'L' :: "ine ".data := rfl
  have hM : ("Missing ".data : List Char) = 'M' :: "issing ".data := rfl
  simp only [invalidHeaderMsg, missingUnreleasedMsg, hL, hM, List.cons_append,
    List.head?_cons] at hh
  exact absurd hh (by decide)

/-- C8 counterexample: the validator tests the trimmed text of each line, so
the single-line document `"## "` — whose line literally starts with `## `, is
not the Unreleased header and does not match the version-header shape —
receives no line-format issue (its trimmed text `"##"` no longer starts with
`## `); the result is exactly the missing-section issue, without the issue
naming line 1 and trimmed text `"##"` that the claim requires. -/
theorem validate_literal_counterexample :
    List.isPrefixOf "## ".data "## ".data = true ∧
    isUnreleasedLine "## ".data = false ∧
    versionHeaderShape "## ".data = false ∧
    versionHeaderShape (pyStrip "## ".data) = false ∧
    validateChangelogFormat (some "## ".data) = [missingUnreleasedMsg] ∧
    invalidHeaderMsg 1 "## ".data ∉ validateChangelogFormat (some "## ".data) := by
  refine ⟨by decide, by decide, by decide, by decide, by rfl, by decide⟩

/-- C8 (amended): `validate_changelog_format` (a total function, hence it
never throws and always yields a list) reports the missing-section issue
exactly when no line is an Unreleased header, and for every line whose
trimmed text starts with `## ` (the engine matches on trimmed text) that is
neither the Unreleased header nor shaped like
`## <d+>.<d+>.<d+> - <YYYY-MM-DD>`, it reports an issue naming that line's
1-based number and trimmed text. -/
theorem validate_issue_coverage (text : Text) :
    (missingUnreleasedMsg ∈ validateChangelogFormat (some text) ↔
       ∀ l ∈ splitNl text, isUnreleasedLine l = false) ∧
    (∀ i (hi : i < (splitNl text).length),
       List.isPrefixOf "## ".data (pyStrip ((splitNl text)[i])) = true →
       isUnreleasedLine ((splitNl text)[i]) = false →
       versionHeaderShape (pyStrip ((splitNl text)[i])) = false →
       invalidHeaderMsg (i + 1) ((splitNl text)[i]) ∈ validateChangelogFormat (some text)) := by
  rw [validateChangelogFormat_some]
  constructor
  · by_cases hany : (splitNl text).any isUnreleasedLine
    · rw [if_pos hany]
      simp only [List.nil_append]
      constructor
      · intro hmem
        exfalso
        obtain ⟨p, _, hfp⟩ := List.mem_filterMap.mp hmem
        by_cases c1 : List.isPrefixOf "## ".data (pyStrip p.2) && !(isUnreleasedLine p.2)
        · rw [if_pos c1] at hfp
          by_cases c2 : versionHeaderShape (pyStrip p.2)
          · rw [if_pos c2] at hfp; cases hfp
          · rw [if_neg c2] at hfp
            exact invalidHeaderMsg_ne_missing _ _ ((Option.some.injEq _ _).mp hfp)
        · rw [if_neg c1] at hfp; cases hfp
      · intro hall
        exfalso
        obtain ⟨l, hl, hpl⟩ := List.any_eq_true.mp hany
        have := hall l hl
        rw [this] at hpl
        cases hpl
    · rw [if_neg hany]
      constructor
      · intro _ l hl
        cases hx : isUnreleasedLine l
        · rfl
        · exact absurd (List.any_eq_true.mpr ⟨l, hl, hx⟩) hany
      · intro _
        exact List.mem_append.mpr (Or.inl (List.mem_cons_self _ _))
  · intro i hi h1 h2 h3
    apply List.mem_append.mpr
    refine Or.inr (List.mem_filterMap.mpr ⟨(i, (splitNl text)[i]), ?_, ?_⟩)
    · exact List.mk_mem_enum_iff_getElem?.mpr (by simp)
    · simp [h1, h2, h3]

theorem validate_issue_coverage_witness :
    invalidHeaderMsg 2 "## bad".data ∈
      validateChangelogFormat (some "# Changelog\n## bad\n## Unreleased\n".data) := by
  exact (validate_issue_coverage "# Changelog\n## bad\n## Unreleased\n".data).2
    1 (by decide) (by decide) (by decide) (by decide)

end Grm
